import Mathlib

/-! Verification development for node-voo's cache-entity engine (src/index.js).

Modelling conventions, used throughout:
a JS string or Buffer is a list of bytes (`List ℕ`), identifying a string with
its UTF-8 byte sequence, under which `Buffer.from(s, "utf-8")` and
`buf.toString("utf-8")` are mutually inverse identities; a JS `Map` is an
insertion-ordered association list whose keys are unique (`Map.prototype.set`
overwrites in place); machine integers are ℕ/ℤ with explicit reductions modulo
2^32 where `Buffer` int32 writes truncate; fallible operations return
`Option`/`Except`. -/

namespace NodeVoo

/-- JS `Map.prototype.set`: overwrite the value of an existing key in place
(keeping its insertion position), otherwise append the pair at the end. -/
def jsMapSet (m : List (List ℕ × List ℕ)) (k v : List ℕ) : List (List ℕ × List ℕ) :=
  if m.any (fun kv => kv.1 == k) then
    m.map (fun kv => if kv.1 == k then (k, v) else kv)
  else m ++ [(k, v)]

/-- The per-group state of a `Voo` (src/index.js, constructor lines 222–240),
restricted to the fields the modelled operations read or write.
`currentModules = none` models `this.currentModules === undefined`. -/
structure Voo where
  name : List ℕ
  created : ℕ
  lifetime : ℕ
  started : ℕ
  modules : List (List ℕ × List ℕ)
  resolve : List (List ℕ × List ℕ)
  currentModules : Option (List (List ℕ))
  scriptSource : Option (List ℕ)
  scriptSourceBuffer : Option (List ℕ)
  integrityMatches : Bool
  deriving DecidableEq

/-- `Voo.mayRestructure` (src/index.js lines 439–474): when the set of members not
observed this run has total byte size above 10240 or more than 100 elements,
delete those members, invalidate the combined source and its buffer, zero the
lifetime and clear `currentModules`; otherwise leave the state untouched.
`Map` iteration yields each key once, so the JS `Set` of removable filenames has
exactly as many elements as the filtered entry list. -/
def mayRestructure (v : Voo) : Voo :=
  match v.currentModules with
  | none => v
  | some cm =>
    let removable : List (List ℕ × List ℕ) := v.modules.filter (fun kv => !decide (kv.1 ∈ cm))
    let removableSize : ℕ := (removable.map (fun kv => kv.2.length)).sum
    if 10240 < removableSize ∨ 100 < removable.length then
      { v with modules := v.modules.filter (fun kv => decide (kv.1 ∈ cm)),
               scriptSource := none, scriptSourceBuffer := none,
               lifetime := 0, currentModules := none }
    else v

/-- `Voo.flipCoin` (src/index.js lines 476–482). `now` models `Date.now()` and `r`
the `Math.random()` draw. The division `runtime / this.lifetime` happens after
`this.mayRestructure()`, which may have zeroed the lifetime; JS then yields
`Infinity` for a positive runtime (so `r < Infinity` is true) and `NaN` for a
zero or negative one (any comparison with `NaN` is false) — the
`v'.lifetime = 0` branch spells out exactly that. -/
def flipCoin (v : Voo) (now : ℕ) (r : ℚ) : Bool × Voo :=
  if v.lifetime = 0 ∨ v.started = 0 then (true, v)
  else
    let v' := mayRestructure v
    let runtime : ℤ := (now : ℤ) - (v'.started : ℤ)
    if v'.lifetime = 0 then (decide (0 < runtime), v')
    else (decide (r < (runtime : ℚ) / (v'.lifetime : ℚ)), v')

/-- `Voo.addModule` (src/index.js lines 534–539). -/
def addModule (v : Voo) (filename source : List ℕ) : Voo :=
  { v with modules := jsMapSet v.modules filename source,
           scriptSource := none, scriptSourceBuffer := none, lifetime := 0 }

/-- `Voo.isValid` (src/index.js lines 514–528). `fsRead` models `fs.readFileSync`
on the real file system (`none` = the read throws). `Buffer.compare(a, b) === 0`
is byte-for-byte equality; when the member is absent from `this.modules`,
`Buffer.compare(undefined, …)` throws and the `catch` returns `false`. -/
def isValid (cacheOnly : Bool) (myNodeModules : List ℕ) (v : Voo)
    (fsRead : List ℕ → Option (List ℕ)) (filename : List ℕ) : Bool :=
  if cacheOnly then true
  else if v.integrityMatches && myNodeModules.isPrefixOf filename then true
  else
    match v.modules.lookup filename, fsRead filename with
    | some cached, some fresh => decide (cached = fresh)
    | _, _ => false

/-- The require-hook's dispatch (src/index.js line 671): run the cached compiled
entry only when a cache entry exists and `isValid` holds; otherwise fall back to
`module._compile` on fresh source. -/
def hookUsesCache (cacheHit : Bool) (valid : Bool) : Bool := cacheHit && valid

/-- The shutdown flush loop (src/index.js lines 589–596) over the groups that
survived the retention test: pick a random index, persist that group, remove it,
and only then compare the elapsed wall-clock time against the budget, breaking
when it is reached. `rs` models the successive `Math.random()` draws (each in
[0,1), so `⌊r·len⌋` is in range; the `min` only makes the model total), `ts` the
successive `Date.now() - start` readings. Returns (persisted, left unpersisted). -/
def flushLoop : List α → List ℚ → List ℕ → ℕ → List α × List α
  | [], _, _, _ => ([], [])
  | v :: vs, rs, ts, limit =>
    let len := vs.length + 1
    let i := min (⌊(rs.headD 0) * (len : ℚ)⌋₊) (len - 1)
    let picked := (v :: vs).getD i v
    if limit ≤ ts.headD 0 then ([picked], (v :: vs).eraseIdx i)
    else
      let out := flushLoop ((v :: vs).eraseIdx i) rs.tail ts.tail limit
      (picked :: out.1, out.2)
termination_by l => l.length
decreasing_by
  simp only [List.length_eraseIdx, List.length_cons]
  split <;> omega

/-- Sign interpretation of a 32-bit little-endian read, as
`Buffer.prototype.readInt32LE` returns it. -/
def toSigned32 (u : ℕ) : ℤ :=
  if u < 2147483648 then (u : ℤ) else (u : ℤ) - 4294967296

/-- Unsigned value of the first four bytes of a buffer tail (0 if shorter; all
reads through this helper are bounds-checked first). -/
def u32From : List ℕ → ℕ
  | b0 :: b1 :: b2 :: b3 :: _ => b0 + 256 * b1 + 65536 * b2 + 16777216 * b3
  | _ => 0

/-- The four bytes `Buffer.prototype.writeInt32LE` stores for a nonnegative
number (values in range are written verbatim; the reduction mod 2^32 makes the
model total). -/
def int32LEbytes (n : ℕ) : List ℕ :=
  let u := n % 4294967296
  [u % 256, u / 256 % 256, u / 65536 % 256, u / 16777216 % 256]

/-- Floor of the base-2 logarithm, by structural recursion on a fuel argument
(`fuel = n` suffices since a number halves to below 2 within `n` steps); agrees
with `Nat.log2` but also computes definitionally. -/
def log2Aux : ℕ → ℕ → ℕ
  | 0, _ => 0
  | fuel + 1, n => if n < 2 then 0 else log2Aux fuel (n / 2) + 1

/-- Floor of the base-2 logarithm of a positive number. -/
def log2floor (n : ℕ) : ℕ := log2Aux n n

/-- IEEE-754 binary64 bit pattern of a nonnegative integer value (exact for
n < 2^53; the mantissa is truncated above that). `persist` stores `this.created`
(a `Date.now() / 1000` reading) through `writeDoubleLE`; the embedding restricts
group states to integer-valued timestamps, on which this encoder agrees with
IEEE-754. -/
def doubleBits (n : ℕ) : ℕ :=
  if n = 0 then 0
  else
    let e := log2floor n
    (1023 + e) * 2 ^ 52 + (n * 2 ^ 52 / 2 ^ e - 2 ^ 52)

/-- The eight bytes `writeDoubleLE` stores for an integer-valued double. -/
def doubleLEbytes (n : ℕ) : List ℕ :=
  let b := doubleBits n
  [b % 256, b / 2 ^ 8 % 256, b / 2 ^ 16 % 256, b / 2 ^ 24 % 256,
   b / 2 ^ 32 % 256, b / 2 ^ 40 % 256, b / 2 ^ 48 % 256, b / 2 ^ 56 % 256]

/-- Low four bytes of the stored double — the only part of `created` that
survives in the header (see `headerBytes`). -/
def doubleLo4 (n : ℕ) : List ℕ := (doubleLEbytes n).take 4

/-- Failure modes of the decoding part of `tryRestore`: the two explicit
`throw new Error` sites for size and version, the `Hash conflict` throw for a
name mismatch, and the `ERR_OUT_OF_RANGE` a bounds-checked `readInt32LE` raises
on a truncated info table (the legacy `noAssert` argument the code passes is
ignored by current Node). All are caught by `tryRestore` and treated as "no
usable cache". -/
inductive DecodeErr
  | size
  | version
  | hashConflict
  | outOfRange
  deriving DecidableEq

/-- `Buffer.prototype.readInt32LE` with its bounds check (offsets outside
`[0, length - 4]` raise, modelled as `.error .outOfRange`). -/
def readInt32LE (buf : List ℕ) (off : ℤ) : Except DecodeErr ℤ :=
  if 0 ≤ off ∧ off + 4 ≤ (buf.length : ℤ) then
    .ok (toSigned32 (u32From (buf.drop off.toNat)))
  else .error .outOfRange

/-- `Buffer.prototype.slice`: negative indices count from the end, and both
bounds are clamped to the buffer — a slice never fails, it silently shortens. -/
def jsSlice (buf : List ℕ) (s e : ℤ) : List ℕ :=
  let n := buf.length
  let s' : ℕ := if s < 0 then ((n : ℤ) + s).toNat else min s.toNat n
  let e' : ℕ := if e < 0 then ((n : ℤ) + e).toNat else min e.toNat n
  (buf.drop s').take (e' - s')

/-- Loop body of `readInfoAndData` (src/index.js lines 182–194): entry `i` reads
its key/value lengths from the info table at `start + i*8` (a bounds-checked
int32 read) and its key/value bytes from the running data position `pos` (a
clamping slice). `valueFn` is the identity for the module table and
`toString("utf-8")` — also the identity in the byte model — for the resolve
table. The first argument counts the remaining loop iterations (the JS loop
runs for `i` from 0 up to `count`, so it starts at `count`). -/
def readEntries (file : List ℕ) (start : ℤ) :
    ℕ → ℕ → ℤ → List (List ℕ × List ℕ) → Except DecodeErr (List (List ℕ × List ℕ) × ℤ)
  | 0, _, pos, acc => .ok (acc, pos)
  | n + 1, i, pos, acc => do
    let keyLength ← readInt32LE file (start + (i : ℤ) * 8)
    let valueLength ← readInt32LE file (start + 4 + (i : ℤ) * 8)
    let key := jsSlice file pos (pos + keyLength)
    let pos1 := pos + keyLength
    let value := jsSlice file pos1 (pos1 + valueLength)
    let pos2 := pos1 + valueLength
    readEntries file start n (i + 1) pos2 (jsMapSet acc key value)

/-- `readInfoAndData` (src/index.js lines 182–194): the data region starts at
`start + count * 8`, past the info table. The count comes from a signed header
field; a negative count runs zero iterations (as the JS `for` loop does) while
still displacing the data position. -/
def readInfoAndData (file : List ℕ) (start : ℤ) (count : ℤ) :
    Except DecodeErr (List (List ℕ × List ℕ) × ℤ) :=
  readEntries file start count.toNat 0 (start + count * 8) []

/-- What the decoding part of `tryRestore` puts back into the group:
`this.created` and `this.lifetime` are whatever `readInt32LE` returned, the
module and resolve tables are rebuilt maps, `scriptSource = none` records a
zero-length stored source (the code then regenerates the combined source from
the member table via `createScriptSource`). -/
structure Decoded where
  created : ℤ
  lifetime : ℤ
  modules : List (List ℕ × List ℕ)
  scriptSource : Option (List ℕ)
  cachedData : Option (List ℕ)
  resolve : List (List ℕ × List ℕ)
  integrityMatches : Bool
  deriving DecidableEq

/-- The decoding part of `Voo.tryRestore` (src/index.js lines 311–361), as a
pure record parser: read the cache file bytes up to (and excluding) the
`vm.Script` compilation step. `expectedName` is `this.name`, `integrity` the
process-wide `nodeModulesIntegrity`. The seven header reads are written out
directly because the initial size check already guarantees they are in bounds.
When neither `cacheOnly` nor the integrity token holds, the resolve table is
skipped and a nonzero entry count zeroes the lifetime (lines 359–361). -/
def decode (expectedName : List ℕ) (integrity : Option (List ℕ)) (cacheOnly : Bool)
    (file : List ℕ) : Except DecodeErr Decoded :=
  if file.length < 32 then .error .size
  else if toSigned32 (u32From file) ≠ 3 then .error .version
  else
    let created := toSigned32 (u32From (file.drop 4))
    let lifetime := toSigned32 (u32From (file.drop 8))
    let nameSize := toSigned32 (u32From (file.drop 12))
    let numberOfModules := toSigned32 (u32From (file.drop 16))
    let scriptSourceSize := toSigned32 (u32From (file.drop 20))
    let cachedDataSize := toSigned32 (u32From (file.drop 24))
    let numberOfResolveEntries := toSigned32 (u32From (file.drop 28))
    let name := jsSlice file 32 (32 + nameSize)
    let pos : ℤ := 32 + nameSize
    if name ≠ expectedName then .error .hashConflict
    else
      let integrityMatches : Bool :=
        if cacheOnly then true
        else
          match integrity with
          | some tok => decide (jsSlice file pos (pos + 13) = tok)
          | none => false
      let pos := pos + 13
      match readInfoAndData file pos numberOfModules with
      | .error e => .error e
      | .ok (modules, pos) =>
        let (scriptSource, pos) :=
          if 0 < scriptSourceSize then
            (some (jsSlice file pos (pos + scriptSourceSize)), pos + scriptSourceSize)
          else (none, pos)
        let (cachedData, pos) :=
          if 0 < cachedDataSize then
            (some (jsSlice file pos (pos + cachedDataSize)), pos + cachedDataSize)
          else (none, pos)
        if cacheOnly || integrityMatches then
          match readInfoAndData file pos numberOfResolveEntries with
          | .error e => .error e
          | .ok (resolve, _) =>
            .ok { created, lifetime, modules, scriptSource, cachedData, resolve,
                  integrityMatches := true }
        else
          .ok { created,
                lifetime := if 0 < numberOfResolveEntries then 0 else lifetime,
                modules, scriptSource, cachedData, resolve := [],
                integrityMatches := false }

/-- The persisted fields of a group at the moment `persist` writes it. A `none`
script source models `this.scriptSource === undefined` (then nothing is written
and the header length field is 0); likewise for the cached data. -/
structure VooRecord where
  name : List ℕ
  created : ℕ
  lifetime : ℕ
  modules : List (List ℕ × List ℕ)
  scriptSource : Option (List ℕ)
  cachedData : Option (List ℕ)
  resolve : List (List ℕ × List ℕ)
  deriving DecidableEq

/-- The info buffer `writeInfoAndData` fills (src/index.js lines 196–208): four
length bytes for the key and four for the value, per entry, in map order. -/
def infoTableBytes (m : List (List ℕ × List ℕ)) : List ℕ :=
  m.flatMap (fun kv => int32LEbytes kv.1.length ++ int32LEbytes kv.2.length)

/-- The buffers `writeInfoAndData` hands to `writeSync`, in order: the info
buffer first, then each entry's key and value buffers. -/
def infoAndDataPayloads (m : List (List ℕ × List ℕ)) : List (List ℕ) :=
  infoTableBytes m :: m.flatMap (fun kv => [kv.1, kv.2])

/-- The 32-byte header `persist` writes (src/index.js lines 262–272).
`writeDoubleLE(this.created, 4)` fills bytes 4–11, and the following
`writeInt32LE(this.lifetime, 8)` overwrites bytes 8–11, so only the low four
bytes of the double survive — hence `doubleLo4` here. -/
def headerBytes (g : VooRecord) : List ℕ :=
  int32LEbytes 3 ++ doubleLo4 g.created ++ int32LEbytes g.lifetime ++
  int32LEbytes g.name.length ++ int32LEbytes g.modules.length ++
  int32LEbytes (match g.scriptSource with | some s => s.length | none => 0) ++
  int32LEbytes (match g.cachedData with | some c => c.length | none => 0) ++
  int32LEbytes g.resolve.length

/-- The successive buffers `persist` writes to the temp file (src/index.js lines
272–285): header, name, integrity token (or 13 zero bytes), module info and
data, script source and cached data when present (a zero-length `Buffer` is
truthy in JS, so a present-but-empty source is still written — as a zero-length
write), and the resolve info and data. -/
def persistPayloads (integrity : Option (List ℕ)) (g : VooRecord) : List (List ℕ) :=
  headerBytes g :: g.name :: integrity.getD (List.replicate 13 0) ::
    (infoAndDataPayloads g.modules ++ g.scriptSource.toList ++ g.cachedData.toList ++
     infoAndDataPayloads g.resolve)

/-- The whole on-disk record: the concatenation of everything `persist` writes. -/
def encode (integrity : Option (List ℕ)) (g : VooRecord) : List ℕ :=
  (persistPayloads integrity g).flatten

/-- The rolling-checksum hasher `getHash` (src/index.js lines 37–48): a 13-byte
accumulator, `hashBuf[x] += c` wrapping at a byte, then
`x = (x + i + c) % 13`. The input is the string's code-unit sequence, which for
the ASCII file paths hashed here coincides with its bytes. -/
def getHashAux : List ℕ → ℕ → ℕ → List ℕ → List ℕ
  | [], _, _, buf => buf
  | c :: cs, i, x, buf =>
    getHashAux cs (i + 1) ((x + i + c) % 13) (buf.set x ((buf.getD x 0 + c) % 256))

/-- `getHash(str)`: 13-byte digest of a name. -/
def getHash (s : List ℕ) : List ℕ :=
  getHashAux s 0 0 (List.replicate 13 0)

/-- One lowercase hex digit, as `Buffer.prototype.toString("hex")` emits. -/
def hexDigit (n : ℕ) : Char :=
  if n < 10 then Char.ofNat (48 + n) else Char.ofNat (87 + n)

/-- `buf.toString("hex")`: two lowercase hex digits per byte. -/
def hexString (bytes : List ℕ) : String :=
  String.mk (bytes.flatMap (fun b => [hexDigit (b / 16), hexDigit (b % 16)]))

/-- The temp path `persist` writes to (src/index.js line 243):
`path.join(tempDir, this.hash + "~" + uniqueId)`, where `this.hash` is the hex
digest of the group name and `uniqueId` is pid plus thread id. -/
def tempPathOf (tempDir : String) (name : List ℕ) (uid : String) : String :=
  tempDir ++ "/" ++ hexString (getHash name) ++ "~" ++ uid

/-- The canonical cache path (src/index.js line 226):
`path.join(cacheDir, this.hash)`. -/
def cachePathOf (cacheDir : String) (name : List ℕ) : String :=
  cacheDir ++ "/" ++ hexString (getHash name)

/-- File-system operations `persist` issues, in the success path. -/
inductive FsOp
  | openTrunc (p : String)
  | write (p : String) (bytes : List ℕ)
  | close (p : String)
  | unlink (p : String)
  | rename (src dst : String)
  deriving DecidableEq

/-- The path a `write` targets, if the operation is a write. -/
def FsOp.writeTarget : FsOp → Option String
  | .write p _ => some p
  | _ => none

/-- The paths an operation can touch at all. -/
def FsOp.affects : FsOp → List String
  | .openTrunc p => [p]
  | .write p _ => [p]
  | .close p => [p]
  | .unlink p => [p]
  | .rename src dst => [src, dst]

/-- Contents of the file system: path to byte content, `none` = absent. -/
def FsState := String → Option (List ℕ)

/-- Effect of one operation: `openSync(p, "w")` truncates/creates, `writeSync`
appends, `closeSync` changes no content, `unlinkSync` removes (a missing target
throws, which `persist` swallows — same net state), `renameSync` atomically
moves the source over the destination (a missing source throws, swallowed). -/
def applyOp (st : FsState) (op : FsOp) : FsState :=
  match op with
  | .openTrunc p => fun q => if q = p then some [] else st q
  | .write p b => fun q => if q = p then some ((st p).getD [] ++ b) else st q
  | .close _ => st
  | .unlink p => fun q => if q = p then none else st q
  | .rename src dst =>
    match st src with
    | none => st
    | some c => fun q => if q = dst then some c else if q = src then none else st q

/-- The operation trace of a successful `Voo.persist` (src/index.js lines
242–292): open the temp file, write every payload to it, close it, then
best-effort unlink the canonical path and rename the temp file onto it. -/
def persistOps (integrity : Option (List ℕ)) (tp cp : String) (g : VooRecord) :
    List FsOp :=
  FsOp.openTrunc tp ::
    ((persistPayloads integrity g).map (FsOp.write tp) ++
      [FsOp.close tp, FsOp.unlink cp, FsOp.rename tp cp])

/-- A concrete group record exercising the created/lifetime header overlap: an
integer `created` of 5 seconds (a `Date.now()` of 5000 ms). -/
def g1 : VooRecord :=
  { name := [97], created := 5, lifetime := 7, modules := [],
    scriptSource := some [120], cachedData := none, resolve := [] }

/-- A minimal record for the name-collision witness. -/
def g4 : VooRecord :=
  { name := [97], created := 0, lifetime := 0, modules := [],
    scriptSource := none, cachedData := none, resolve := [] }

/-- A minimal record for the atomic-persist witness. -/
def g2 : VooRecord :=
  { name := [97], created := 0, lifetime := 0, modules := [],
    scriptSource := none, cachedData := none, resolve := [] }

/-- A 48-byte buffer whose header declares a 5-byte script source while the data
region holds only 2 bytes: name length 1, no modules, no cached data, no resolve
entries, so the record would need 32 + 1 + 13 + 5 = 51 bytes. -/
def buf3 : List ℕ :=
  int32LEbytes 3 ++ [0, 0, 0, 0] ++ int32LEbytes 0 ++ int32LEbytes 1 ++
  int32LEbytes 0 ++ int32LEbytes 5 ++ int32LEbytes 0 ++ int32LEbytes 0 ++
  [97] ++ List.replicate 13 0 ++ [120, 121]

/-- A group whose final restructure inside `flipCoin` commits (101 unobserved
one-byte members), zeroing the recorded lifetime mid-call. -/
def v7 : Voo :=
  { name := [97], created := 0, lifetime := 1000, started := 100,
    modules := (List.range 101).map (fun i => ([i], [0])),
    resolve := [], currentModules := some [],
    scriptSource := some [], scriptSourceBuffer := none, integrityMatches := false }

/-- A group on which `mayRestructure` is a no-op (`currentModules` cleared). -/
def v7b : Voo :=
  { name := [97], created := 0, lifetime := 1000, started := 100,
    modules := [], resolve := [], currentModules := none,
    scriptSource := some [], scriptSourceBuffer := none, integrityMatches := false }

/-- A group crossing the 10 KiB restructuring threshold with one 10241-byte
unobserved member. -/
def v5 : Voo :=
  { name := [], created := 0, lifetime := 5, started := 0,
    modules := [([107], List.replicate 10241 0)],
    resolve := [], currentModules := some [],
    scriptSource := some [], scriptSourceBuffer := none, integrityMatches := false }

/- Helper lemmas about the byte-level building blocks. -/

theorem length_int32LEbytes (n : ℕ) : (int32LEbytes n).length = 4 := rfl

theorem length_doubleLo4 (n : ℕ) : (doubleLo4 n).length = 4 := rfl

theorem length_headerBytes (g : VooRecord) : (headerBytes g).length = 32 := by
  unfold headerBytes
  simp [length_int32LEbytes, length_doubleLo4]

theorem drop_length_append (l₁ l₂ : List ℕ) (n : ℕ) (h : l₁.length = n) :
    (l₁ ++ l₂).drop n = l₂ := by
  subst h; exact List.drop_left l₁ l₂

theorem take_length_append (l₁ l₂ : List ℕ) (n : ℕ) (h : l₁.length = n) :
    (l₁ ++ l₂).take n = l₁ := by
  subst h; exact List.take_left l₁ l₂

theorem u32From_int32LEbytes (n : ℕ) (r : List ℕ) :
    u32From (int32LEbytes n ++ r) = n % 4294967296 := by
  simp only [int32LEbytes, List.cons_append, List.nil_append, u32From]
  omega

theorem jsSlice_of_append (pre mid post : List ℕ) (s e : ℤ)
    (hs : s = (pre.length : ℤ)) (he : e = (pre.length : ℤ) + (mid.length : ℤ)) :
    jsSlice (pre ++ (mid ++ post)) s e = mid := by
  subst hs he
  have hlen : (pre ++ (mid ++ post)).length = pre.length + (mid.length + post.length) := by
    simp [List.length_append]
  simp only [jsSlice]
  rw [if_neg (by omega : ¬ ((pre.length : ℤ) < 0)),
      if_neg (by omega : ¬ ((pre.length : ℤ) + (mid.length : ℤ) < 0))]
  have h4 : (((pre.length : ℤ)) + ((mid.length : ℤ))).toNat = pre.length + mid.length := by
    omega
  rw [Int.toNat_natCast, h4]
  have h5 : min pre.length (pre ++ (mid ++ post)).length = pre.length := by
    rw [hlen]; omega
  have h6 : min (pre.length + mid.length) (pre ++ (mid ++ post)).length =
      pre.length + mid.length := by
    rw [hlen]; omega
  rw [h5, h6, drop_length_append pre (mid ++ post) pre.length rfl]
  have h7 : pre.length + mid.length - pre.length = mid.length := by omega
  rw [h7, take_length_append mid post mid.length rfl]

theorem encode_expand (integ : Option (List ℕ)) (g : VooRecord) :
    encode integ g =
      headerBytes g ++ (g.name ++ (integ.getD (List.replicate 13 0) ++
        (infoAndDataPayloads g.modules ++ g.scriptSource.toList ++ g.cachedData.toList ++
          infoAndDataPayloads g.resolve).flatten)) := by
  unfold encode persistPayloads
  simp [List.flatten_cons]

theorem mayRestructure_noop_of_none (w : Voo) (h : w.currentModules = none) :
    mayRestructure w = w := by
  unfold mayRestructure
  rw [h]

theorem mayRestructure_cases (v : Voo) :
    mayRestructure v = v ∨
      ((mayRestructure v).currentModules = none ∧ (mayRestructure v).lifetime = 0 ∧
        (mayRestructure v).started = v.started) := by
  unfold mayRestructure
  split
  · exact Or.inl rfl
  · dsimp only
    split
    · exact Or.inr ⟨rfl, rfl, rfl⟩
    · exact Or.inl rfl

theorem mayRestructure_started (v : Voo) : (mayRestructure v).started = v.started := by
  rcases mayRestructure_cases v with h | h
  · rw [h]
  · exact h.2.2

/- Claim theorems. -/

set_option maxRecDepth 100000 in
/-- C1: round-trip of `persist` and `tryRestore` does NOT reproduce `createdAt`.
`persist` writes `created` as an 8-byte double at header offset 4 and then
writes `lifetime` at offset 8, overwriting the double's upper half, and
`tryRestore` reads `created` back with `readInt32LE(4)` — the low 32 bits of the
IEEE-754 pattern of 5.0 are 0, so a group created at time 5 decodes with
`created = 0` while every other field survives. -/
theorem decode_encode_mangles_created :
    g1.created = 5 ∧
    decode g1.name none false (encode none g1) =
      .ok { created := 0, lifetime := 7, modules := [], scriptSource := some [120],
            cachedData := none, resolve := [], integrityMatches := false } :=
  ⟨rfl, rfl⟩

set_option maxRecDepth 100000 in
/-- C3 counterexample: a buffer whose header-declared lengths (51 bytes needed)
exceed the 48 bytes actually available is decoded successfully — the slice of
the script-source region silently clamps to the remaining 2 bytes instead of
failing as a truncated record. -/
theorem decode_accepts_short_record :
    buf3.length = 48 ∧
    toSigned32 (u32From (buf3.drop 20)) = 5 ∧
    decode [97] none false buf3 =
      .ok { created := 0, lifetime := 0, modules := [], scriptSource := some [120, 121],
            cachedData := none, resolve := [], integrityMatches := false } :=
  ⟨by decide, by decide, rfl⟩

/-- C3 (amended): the only size precondition decoding enforces up front is that
the full 32-byte header is present; a shorter buffer fails as a truncated
record. (Shortfalls in the variable-length regions are not detected: int32
reads of the info tables beyond the buffer fail with a range error, but the
data slices clamp, as the counterexample shows.) -/
theorem decode_short_header_is_error (expectedName : List ℕ) (integ : Option (List ℕ))
    (co : Bool) (buf : List ℕ) (h : buf.length < 32) :
    decode expectedName integ co buf = .error .size := by
  unfold decode
  rw [if_pos h]

theorem decode_short_header_is_error_witness :
    ([] : List ℕ).length < 32 ∧ decode [] none false [] = .error .size :=
  ⟨by decide, decode_short_header_is_error [] none false [] (by decide)⟩

/-- C5: `mayRestructure` commits the removal of the unobserved members — leaving
exactly the observed ones, zeroing the lifetime and clearing `currentModules` —
if and only if the removable byte size exceeds 10240 or the removable member
count exceeds 100 (so 99 one-byte unobserved members are left alone, 101 are
removed, and a single 10241-byte member is removed). -/
theorem mayRestructure_threshold (v : Voo) (cm : List (List ℕ))
    (hcm : v.currentModules = some cm) :
    (mayRestructure v =
      { v with modules := v.modules.filter (fun kv => decide (kv.1 ∈ cm)),
               scriptSource := none, scriptSourceBuffer := none,
               lifetime := 0, currentModules := none }) ↔
    (10240 < ((v.modules.filter (fun kv => !decide (kv.1 ∈ cm))).map
        (fun kv => kv.2.length)).sum ∨
      100 < (v.modules.filter (fun kv => !decide (kv.1 ∈ cm))).length) := by
  unfold mayRestructure
  rw [hcm]
  dsimp only
  by_cases h : 10240 < ((v.modules.filter (fun kv => !decide (kv.1 ∈ cm))).map
      (fun kv => kv.2.length)).sum ∨
      100 < (v.modules.filter (fun kv => !decide (kv.1 ∈ cm))).length
  · rw [if_pos h]
    exact iff_of_true rfl h
  · rw [if_neg h]
    refine iff_of_false ?_ h
    intro heq
    have hc := congrArg Voo.currentModules heq
    rw [hcm] at hc
    simp at hc

theorem mayRestructure_threshold_witness :
    v5.currentModules = some [] ∧
    ((mayRestructure v5 =
      { v5 with modules := v5.modules.filter (fun kv => decide (kv.1 ∈ ([] : List (List ℕ)))),
                scriptSource := none, scriptSourceBuffer := none,
                lifetime := 0, currentModules := none }) ↔
    (10240 < ((v5.modules.filter (fun kv => !decide (kv.1 ∈ ([] : List (List ℕ))))).map
        (fun kv => kv.2.length)).sum ∨
      100 < (v5.modules.filter (fun kv => !decide (kv.1 ∈ ([] : List (List ℕ))))).length)) :=
  ⟨rfl, mayRestructure_threshold v5 [] rfl⟩

/-- C6: the hotness counter is zeroed by every operation that changes the stored
members or the combined source: `addModule` always sets `lifetime = 0`, and
`mayRestructure` either leaves the whole state untouched or sets
`lifetime = 0`. -/
theorem lifetime_reset_on_change :
    (∀ (v : Voo) (filename source : List ℕ), (addModule v filename source).lifetime = 0) ∧
    (∀ v : Voo, mayRestructure v = v ∨ (mayRestructure v).lifetime = 0) := by
  constructor
  · intro v f s
    rfl
  · intro v
    rcases mayRestructure_cases v with h | h
    · exact Or.inl h
    · exact Or.inr h.2.1

/-- C7 counterexample: a group with recorded lifetime 1000 ms, started at 100 ms
and observed at 600 ms (elapsed 500 ms), whose final `mayRestructure` inside
`flipCoin` commits and zeroes the lifetime: the draw r = 9/10 keeps the group
(`runtime / 0` is `Infinity` in JS), although the claimed criterion
r < elapsed/lifetime = 1/2 says it must be dropped. -/
theorem flipCoin_exceeds_claimed_probability :
    (flipCoin v7 600 (9 / 10)).1 = true ∧
    ¬((9 : ℚ) / 10 < ((600 : ℚ) - (v7.started : ℚ)) / (v7.lifetime : ℚ)) :=
  ⟨by decide, by norm_num [v7]⟩

/-- C7 (amended): `flipCoin` keeps the group unconditionally when the recorded
lifetime is 0 or it never started timing; otherwise it first runs
`mayRestructure`, and the draw is compared against elapsed divided by the
post-restructure lifetime: if that lifetime was zeroed by a committing
restructure the group is kept exactly when the elapsed time is positive, and
otherwise it is kept exactly when r < elapsed / lifetime. -/
theorem flipCoin_retention (v : Voo) (now : ℕ) (r : ℚ) :
    ((v.lifetime = 0 ∨ v.started = 0) → (flipCoin v now r).1 = true) ∧
    (v.lifetime ≠ 0 → v.started ≠ 0 → (mayRestructure v).lifetime = 0 →
      ((flipCoin v now r).1 = true ↔ 0 < (now : ℤ) - (v.started : ℤ))) ∧
    (v.lifetime ≠ 0 → v.started ≠ 0 → (mayRestructure v).lifetime ≠ 0 →
      ((flipCoin v now r).1 = true ↔
        r < (((now : ℤ) - (v.started : ℤ) : ℤ) : ℚ) / ((mayRestructure v).lifetime : ℚ))) := by
  refine ⟨fun h => ?_, fun h1 h2 h0 => ?_, fun h1 h2 h0 => ?_⟩
  · unfold flipCoin
    rw [if_pos h]
  · unfold flipCoin
    rw [if_neg (by tauto)]
    dsimp only
    rw [if_pos h0, mayRestructure_started]
    exact decide_eq_true_iff
  · unfold flipCoin
    rw [if_neg (by tauto)]
    dsimp only
    rw [if_neg h0, mayRestructure_started]
    exact decide_eq_true_iff

theorem flipCoin_retention_witness :
    v7b.lifetime ≠ 0 ∧ v7b.started ≠ 0 ∧ (mayRestructure v7b).lifetime ≠ 0 ∧
    (flipCoin v7b 600 (1 / 4)).1 = true :=
  ⟨by decide, by decide, by decide,
    ((flipCoin_retention v7b 600 (1 / 4)).2.2 (by decide) (by decide) (by decide)).mpr
      (by rw [mayRestructure_noop_of_none v7b rfl]; norm_num [v7b])⟩

/-- C8: `isValid` holds exactly when cache-only mode is set, or the integrity
token matched and the filename falls under the trusted node_modules root, or the
cached raw bytes for the member equal a fresh read of the file; and whenever
`isValid` is false the require hook's dispatch refuses the cached entry, falling
back to live compilation. -/
theorem isValid_spec (co : Bool) (mnm : List ℕ) (v : Voo)
    (fsRead : List ℕ → Option (List ℕ)) (f : List ℕ) :
    (isValid co mnm v fsRead f = true ↔
      co = true ∨ (v.integrityMatches = true ∧ mnm.isPrefixOf f = true) ∨
      ∃ b, v.modules.lookup f = some b ∧ fsRead f = some b) ∧
    (∀ cacheHit : Bool, isValid co mnm v fsRead f = false →
      hookUsesCache cacheHit (isValid co mnm v fsRead f) = false) := by
  constructor
  · rcases hmod : v.modules.lookup f with _ | cached <;>
      rcases hf : fsRead f with _ | fresh <;>
        cases co <;> cases him : v.integrityMatches <;> cases hpf : mnm.isPrefixOf f <;>
          simp [isValid, hmod, hf, him, hpf, eq_comm]
  · intro cacheHit hfalse
    rw [hookUsesCache, hfalse]
    exact Bool.and_false cacheHit

/-- C9: `mayRestructure` is idempotent — a committing call clears
`currentModules` so the next call is a no-op, and a below-threshold call leaves
the state unchanged. -/
theorem mayRestructure_idempotent (v : Voo) :
    mayRestructure (mayRestructure v) = mayRestructure v := by
  rcases mayRestructure_cases v with h | h
  · rw [h]
    exact h
  · exact mayRestructure_noop_of_none _ h.1

/-- C10: the shutdown flush loop checks the wall-clock budget only after a
persist completes, so whenever at least one group survived the retention test at
least one group is persisted, however small the budget. -/
theorem flushLoop_persists_first {α : Type} (voos : List α) (rs : List ℚ) (ts : List ℕ)
    (limit : ℕ) (h : voos ≠ []) :
    (flushLoop voos rs ts limit).1 ≠ [] := by
  cases voos with
  | nil => exact absurd rfl h
  | cons v vs =>
    rw [flushLoop]
    split
    · simp
    · simp

theorem flushLoop_persists_first_witness :
    ([5] : List ℕ) ≠ [] ∧ (flushLoop ([5] : List ℕ) [] [] 0).1 ≠ [] :=
  ⟨by decide, flushLoop_persists_first [5] [] [] 0 (by decide)⟩

theorem encode_split12 (integ : Option (List ℕ)) (g : VooRecord) :
    ∃ R, encode integ g =
      (int32LEbytes 3 ++ doubleLo4 g.created ++ int32LEbytes g.lifetime) ++
        (int32LEbytes g.name.length ++ R) := by
  refine ⟨int32LEbytes g.modules.length ++
      int32LEbytes (match g.scriptSource with | some s => s.length | none => 0) ++
      int32LEbytes (match g.cachedData with | some c => c.length | none => 0) ++
      int32LEbytes g.resolve.length ++
      (g.name ++ (integ.getD (List.replicate 13 0) ++
        (infoAndDataPayloads g.modules ++ g.scriptSource.toList ++ g.cachedData.toList ++
          infoAndDataPayloads g.resolve).flatten)), ?_⟩
  rw [encode_expand]
  simp [headerBytes, List.append_assoc]

/-- C4: decoding a record written for group A under a different expected logical
name (the situation after a digest collision) always fails with the
`Hash conflict` error — the stored name is compared against the expected one
before any member, script source, artifact or resolution data is adopted. -/
theorem decode_encode_name_collision (integE integD : Option (List ℕ)) (co : Bool)
    (g : VooRecord) (expected : List ℕ)
    (hn : g.name.length < 2147483648) (hne : expected ≠ g.name) :
    decode expected integD co (encode integE g) = .error .hashConflict := by
  obtain ⟨R, hR⟩ := encode_split12 integE g
  have hexp := encode_expand integE g
  have hlen : 32 + g.name.length ≤ (encode integE g).length := by
    rw [hexp]
    simp only [List.length_append, length_headerBytes]
    omega
  have h32 : ¬ ((encode integE g).length < 32) := by omega
  have hv : toSigned32 (u32From (encode integE g)) = 3 := by
    rw [hR, List.append_assoc, List.append_assoc, u32From_int32LEbytes]
    norm_num [toSigned32]
  have hns : toSigned32 (u32From ((encode integE g).drop 12)) = (g.name.length : ℤ) := by
    rw [hR, drop_length_append _ _ 12
          (by simp [List.length_append, length_int32LEbytes, length_doubleLo4]),
        u32From_int32LEbytes, Nat.mod_eq_of_lt (by omega)]
    unfold toSigned32
    rw [if_pos hn]
  have hname : jsSlice (encode integE g) 32 (32 + (g.name.length : ℤ)) = g.name := by
    rw [hexp]
    exact jsSlice_of_append (headerBytes g) g.name _ _ _
      (by rw [length_headerBytes]; norm_num)
      (by rw [length_headerBytes]; norm_num)
  simp only [decode]
  rw [if_neg h32]
  rw [hv]
  rw [if_neg (by norm_num)]
  rw [hns, hname]
  rw [if_pos (Ne.symm hne)]

theorem decode_encode_name_collision_witness :
    g4.name.length < 2147483648 ∧ ([98] : List ℕ) ≠ g4.name ∧
    decode [98] none false (encode none g4) = .error .hashConflict :=
  ⟨by decide, by decide,
    decode_encode_name_collision none none false g4 [98] (by decide) (by decide)⟩

theorem applyOp_not_affects (st : FsState) (op : FsOp) (q : String)
    (h : q ∉ op.affects) : applyOp st op q = st q := by
  cases op with
  | openTrunc p =>
    simp only [FsOp.affects, List.mem_singleton] at h
    simp [applyOp, h]
  | write p b =>
    simp only [FsOp.affects, List.mem_singleton] at h
    simp [applyOp, h]
  | close p => rfl
  | unlink p =>
    simp only [FsOp.affects, List.mem_singleton] at h
    simp [applyOp, h]
  | rename src dst =>
    simp only [FsOp.affects, List.mem_cons, List.mem_singleton, not_or] at h
    simp only [applyOp]
    cases hs : st src with
    | none => rfl
    | some c => simp [h.1, h.2]

theorem foldl_not_affects (l : List FsOp) (st : FsState) (q : String)
    (h : ∀ op ∈ l, q ∉ op.affects) : (l.foldl applyOp st) q = st q := by
  induction l generalizing st with
  | nil => rfl
  | cons op ops ih =>
    rw [List.foldl_cons, ih _ (fun o ho => h o (List.mem_cons_of_mem _ ho))]
    exact applyOp_not_affects st op q (h op (List.mem_cons_self _ _))

theorem foldl_writes (pls : List (List ℕ)) (p : String) (st : FsState) (b : List ℕ)
    (hst : st p = some b) :
    ((pls.map (FsOp.write p)).foldl applyOp st) p = some (b ++ pls.flatten) := by
  induction pls generalizing st b with
  | nil => simp [hst]
  | cons pl pls ih =>
    rw [List.map_cons, List.foldl_cons,
        ih (applyOp st (FsOp.write p pl)) (b ++ pl) (by simp [applyOp, hst])]
    simp [List.flatten_cons, List.append_assoc]

theorem persist_atomic_aux (integ : Option (List ℕ)) (tp cp : String) (g : VooRecord)
    (fs0 : FsState) (k : ℕ) (hne : tp ≠ cp) :
    ((persistOps integ tp cp g).take k).foldl applyOp fs0 cp = fs0 cp ∨
    ((persistOps integ tp cp g).take k).foldl applyOp fs0 cp = none ∨
    ((persistOps integ tp cp g).take k).foldl applyOp fs0 cp = some (encode integ g) := by
  have hcp : cp ≠ tp := Ne.symm hne
  have hops : persistOps integ tp cp g =
      (FsOp.openTrunc tp :: ((persistPayloads integ g).map (FsOp.write tp) ++
        [FsOp.close tp])) ++ [FsOp.unlink cp, FsOp.rename tp cp] := by
    simp [persistOps]
  have hpreOnly : ∀ op ∈ FsOp.openTrunc tp ::
      ((persistPayloads integ g).map (FsOp.write tp) ++ [FsOp.close tp]),
      cp ∉ op.affects := by
    intro op hop
    rcases List.mem_cons.mp hop with h | h
    · subst h; simp [FsOp.affects, hcp]
    · rcases List.mem_append.mp h with h | h
      · obtain ⟨pl, _, rfl⟩ := List.mem_map.mp h
        simp [FsOp.affects, hcp]
      · rw [List.mem_singleton.mp h]
        simp [FsOp.affects, hcp]
  have htp : ((FsOp.openTrunc tp :: ((persistPayloads integ g).map (FsOp.write tp) ++
      [FsOp.close tp])).foldl applyOp fs0) tp = some (encode integ g) := by
    rw [List.foldl_cons, List.foldl_append]
    have h0 : (applyOp fs0 (FsOp.openTrunc tp)) tp = some ([] : List ℕ) := by
      simp [applyOp]
    have h1 := foldl_writes (persistPayloads integ g) tp _ [] h0
    simpa [applyOp, encode] using h1
  rcases le_or_lt k (FsOp.openTrunc tp :: ((persistPayloads integ g).map (FsOp.write tp) ++
      [FsOp.close tp])).length with hk | hk
  · left
    rw [hops, List.take_append_of_le_length hk]
    exact foldl_not_affects _ _ _ (fun op ho => hpreOnly op (List.mem_of_mem_take ho))
  · have hsplit : k = (FsOp.openTrunc tp :: ((persistPayloads integ g).map (FsOp.write tp) ++
        [FsOp.close tp])).length + 1 ∨
        (FsOp.openTrunc tp :: ((persistPayloads integ g).map (FsOp.write tp) ++
        [FsOp.close tp])).length + 2 ≤ k := by omega
    rcases hsplit with hk1 | hk2
    · right; left
      rw [hops, List.take_append_eq_append_take, List.take_of_length_le (by omega),
          hk1]
      have h1 : (FsOp.openTrunc tp :: ((persistPayloads integ g).map (FsOp.write tp) ++
          [FsOp.close tp])).length + 1 -
          (FsOp.openTrunc tp :: ((persistPayloads integ g).map (FsOp.write tp) ++
          [FsOp.close tp])).length = 1 := by omega
      rw [h1]
      rw [List.foldl_append]
      have hpre := foldl_not_affects _ fs0 cp hpreOnly
      simp [applyOp]
    · right; right
      have key2 : ∀ st1 : FsState, applyOp st1 (FsOp.unlink cp) tp = st1 tp := by
        intro st1
        simp only [applyOp]
        rw [if_neg hne]
      have key : ∀ st1 : FsState, st1 tp = some (encode integ g) →
          applyOp st1 (FsOp.rename tp cp) cp = some (encode integ g) := by
        intro st1 h1
        simp only [applyOp]
        rw [h1]
        simp
      rw [hops, List.take_of_length_le
            (by simp only [List.length_append, List.length_cons, List.length_nil,
                  List.length_map] at hk2 ⊢; omega),
          List.foldl_append]
      simp only [List.foldl_cons, List.foldl_nil]
      exact key _ (by rw [key2]; exact htp)

/-- C2: on the success path, `persist` writes every byte to the temp path
`<digest>~<processInstanceId>` (no other operation writes anywhere), the rename
installing the record at the canonical path is the final operation, and after
any prefix of the operation trace the canonical cache path holds either its
initial content, nothing (the moment between the best-effort unlink and the
rename), or the complete encoded record — never a partially written one. -/
theorem persist_atomic (td cd uid : String) (integ : Option (List ℕ)) (g : VooRecord)
    (fs0 : FsState) (k : ℕ)
    (hne : tempPathOf td g.name uid ≠ cachePathOf cd g.name) :
    (∀ op ∈ persistOps integ (tempPathOf td g.name uid) (cachePathOf cd g.name) g,
        op.writeTarget = none ∨ op.writeTarget = some (tempPathOf td g.name uid)) ∧
    ((persistOps integ (tempPathOf td g.name uid) (cachePathOf cd g.name) g).getLast? =
        some (FsOp.rename (tempPathOf td g.name uid) (cachePathOf cd g.name))) ∧
    (((persistOps integ (tempPathOf td g.name uid) (cachePathOf cd g.name) g).take k).foldl
          applyOp fs0 (cachePathOf cd g.name) = fs0 (cachePathOf cd g.name) ∨
      ((persistOps integ (tempPathOf td g.name uid) (cachePathOf cd g.name) g).take k).foldl
          applyOp fs0 (cachePathOf cd g.name) = none ∨
      ((persistOps integ (tempPathOf td g.name uid) (cachePathOf cd g.name) g).take k).foldl
          applyOp fs0 (cachePathOf cd g.name) = some (encode integ g)) := by
  refine ⟨?_, ?_, persist_atomic_aux integ _ _ g fs0 k hne⟩
  · intro op hop
    simp only [persistOps, List.mem_cons, List.mem_append, List.mem_singleton,
      List.mem_nil_iff, or_false] at hop
    rcases hop with h | h | h | h | h
    · subst h; left; rfl
    · obtain ⟨pl, _, rfl⟩ := List.mem_map.mp h
      right; rfl
    · subst h; left; rfl
    · subst h; left; rfl
    · subst h; left; rfl
  · have : persistOps integ (tempPathOf td g.name uid) (cachePathOf cd g.name) g =
        (FsOp.openTrunc (tempPathOf td g.name uid) ::
          ((persistPayloads integ g).map (FsOp.write (tempPathOf td g.name uid)) ++
            [FsOp.close (tempPathOf td g.name uid), FsOp.unlink (cachePathOf cd g.name)])) ++
        [FsOp.rename (tempPathOf td g.name uid) (cachePathOf cd g.name)] := by
      simp [persistOps]
    rw [this, List.getLast?_concat]

theorem persist_atomic_witness :
    (tempPathOf "t" g2.name "1" ≠ cachePathOf "c" g2.name) ∧
    ((∀ op ∈ persistOps none (tempPathOf "t" g2.name "1") (cachePathOf "c" g2.name) g2,
        op.writeTarget = none ∨ op.writeTarget = some (tempPathOf "t" g2.name "1")) ∧
    ((persistOps none (tempPathOf "t" g2.name "1") (cachePathOf "c" g2.name) g2).getLast? =
        some (FsOp.rename (tempPathOf "t" g2.name "1") (cachePathOf "c" g2.name))) ∧
    (((persistOps none (tempPathOf "t" g2.name "1") (cachePathOf "c" g2.name) g2).take 6).foldl
          applyOp (fun _ => none) (cachePathOf "c" g2.name) =
        (fun _ => (none : Option (List ℕ))) (cachePathOf "c" g2.name) ∨
      ((persistOps none (tempPathOf "t" g2.name "1") (cachePathOf "c" g2.name) g2).take 6).foldl
          applyOp (fun _ => none) (cachePathOf "c" g2.name) = none ∨
      ((persistOps none (tempPathOf "t" g2.name "1") (cachePathOf "c" g2.name) g2).take 6).foldl
          applyOp (fun _ => none) (cachePathOf "c" g2.name) = some (encode none g2))) :=
  ⟨by decide, persist_atomic "t" "c" "1" none g2 (fun _ => none) 6 (by decide)⟩

end NodeVoo
